import Mathlib

/-!
Verification of the scriptable interception pipeline of `cc-switch`
(`src-tauri/src/request_hook_script.rs` and
`src-tauri/src/proxy/header_filter.rs`).

The Rust code is shallowly embedded: hash maps become association lists
whose insert replaces the value of an existing key in place (so that the
key → value function agrees with `HashMap::insert`), `serde_json::Value`
becomes an inductive `Json` type, and the QuickJS sandbox is modelled by
an abstract evaluation outcome (the host-side pipeline around it is
translated verbatim).
-/

/-! ## ASCII lowercasing (Rust `str::to_ascii_lowercase`) -/

/-- String-level ASCII lowercasing: `Char.toLower` is exactly Rust's
`u8::to_ascii_lowercase` on basic latin letters. -/
def toAsciiLower (s : String) : String :=
  String.mk (s.data.map Char.toLower)

/-- Rust `str::eq_ignore_ascii_case`, expressed through ASCII lowering of
both sides (equivalent to the byte-wise comparison in the standard library). -/
def eqIgnoreAsciiCase (a b : String) : Bool :=
  toAsciiLower a == toAsciiLower b

/-! ## Header denylist (`proxy/header_filter.rs`) -/

/-- `HEADER_BLACKLIST` from `proxy/header_filter.rs`, in source order. -/
def HEADER_BLACKLIST : List String :=
  [ "authorization"
  , "x-api-key"
  , "x-goog-api-key"
  , "host"
  , "content-length"
  , "transfer-encoding"
  , "accept-encoding"
  , "x-forwarded-host"
  , "x-forwarded-port"
  , "x-forwarded-proto"
  , "forwarded"
  , "cf-connecting-ip"
  , "cf-ipcountry"
  , "cf-ray"
  , "cf-visitor"
  , "true-client-ip"
  , "fastly-client-ip"
  , "x-azure-clientip"
  , "x-azure-fdid"
  , "x-azure-ref"
  , "akamai-origin-hop"
  , "x-akamai-config-log-detail"
  , "x-request-id"
  , "x-correlation-id"
  , "x-trace-id"
  , "x-amzn-trace-id"
  , "x-b3-traceid"
  , "x-b3-spanid"
  , "x-b3-parentspanid"
  , "x-b3-sampled"
  , "traceparent"
  , "tracestate"
  , "anthropic-beta"
  , "anthropic-version"
  , "x-forwarded-for"
  , "x-real-ip" ]

/-- `is_header_blacklisted` from `proxy/header_filter.rs`:
`HEADER_BLACKLIST.iter().any(|h| name.eq_ignore_ascii_case(h))`. -/
def is_header_blacklisted (name : String) : Bool :=
  HEADER_BLACKLIST.any (fun h => eqIgnoreAsciiCase name h)

/-! ## String maps (model of `HashMap<String, String>`) -/

/-- Association-list model of `HashMap<String, String>`.  Operations keep
keys distinct, so the list agrees with the hash map as a key → value
function; list order stands in for the map's (unspecified) iteration
order. -/
abbrev StrMap := List (String × String)

/-- Lookup (`HashMap::get`). -/
def findVal (m : StrMap) (k : String) : Option String :=
  match m with
  | [] => none
  | (k0, v0) :: rest => if k0 = k then some v0 else findVal rest k

/-- `HashMap::insert`: replace the value of an existing key, else add the
binding. -/
def setVal (m : StrMap) (k v : String) : StrMap :=
  match m with
  | [] => [(k, v)]
  | (k0, v0) :: rest => if k0 = k then (k0, v) :: rest else (k0, v0) :: setVal rest k v

theorem findVal_setVal (m : StrMap) (k v q : String) :
    findVal (setVal m k v) q = if k = q then some v else findVal m q := by
  induction m with
  | nil =>
    by_cases h : k = q <;> simp [setVal, findVal, h]
  | cons p rest ih =>
    obtain ⟨k0, v0⟩ := p
    by_cases h0 : k0 = k
    · subst h0
      by_cases h : k0 = q <;> simp [setVal, findVal, h, ih]
    · by_cases h : k0 = q
      · subst h
        simp [setVal, findVal, h0, Ne.symm h0]
      · simp [setVal, findVal, h0, h, ih]

theorem toLower_toNat_of_upper (c : Char) (h : 65 ≤ c.toNat ∧ c.toNat ≤ 90) :
    (Char.toLower c).toNat = c.toNat + 32 := by
  have hv : (c.toNat + 32).isValidChar := Or.inl (by omega)
  simp only [Char.toLower, h, if_pos, and_self]
  rw [Char.ofNat, dif_pos hv]
  rfl

theorem toLower_eq_self_of_not_upper (c : Char) (h : ¬(65 ≤ c.toNat ∧ c.toNat ≤ 90)) :
    Char.toLower c = c := by
  simp only [Char.toLower, h, if_neg]
  simp

theorem toLower_idem (c : Char) : Char.toLower (Char.toLower c) = Char.toLower c := by
  by_cases h : 65 ≤ c.toNat ∧ c.toNat ≤ 90
  · have h2 := toLower_toNat_of_upper c h
    exact toLower_eq_self_of_not_upper _ (by omega)
  · rw [toLower_eq_self_of_not_upper c h, toLower_eq_self_of_not_upper c h]

theorem toAsciiLower_idem (s : String) :
    toAsciiLower (toAsciiLower s) = toAsciiLower s := by
  show String.mk (List.map Char.toLower (List.map Char.toLower s.data)) = _
  rw [List.map_map]
  exact congrArg String.mk (List.map_congr_left fun c _ => toLower_idem c)

theorem setVal_keys_subset (m : StrMap) (k v : String) (p : String × String)
    (hp : p ∈ setVal m k v) : p ∈ m ∨ p.1 = k := by
  induction m with
  | nil =>
    simp [setVal] at hp
    subst hp
    exact Or.inr rfl
  | cons q rest ih =>
    obtain ⟨k0, v0⟩ := q
    by_cases h0 : k0 = k
    · simp [setVal, h0] at hp
      rcases hp with hp | hp
      · exact Or.inr (by simp [hp, h0])
      · exact Or.inl (by simp [hp])
    · simp [setVal, h0] at hp
      rcases hp with hp | hp
      · exact Or.inl (by simp [hp])
      · rcases ih hp with h | h
        · exact Or.inl (by simp [h])
        · exact Or.inr h

/-! ## JSON values (model of `serde_json::Value`) -/

/-- Model of `serde_json::Value`.  `num n` is a number holding the integer
`n` (serde's `u64`/`i64` representations); `decimalLit lit` stands for a
number backed by a non-integral `f64` (kept abstractly by its literal),
on which `as_u64` fails. -/
inductive Json where
  | null
  | bool (b : Bool)
  | num (n : Int)
  | decimalLit (lit : String)
  | str (s : String)
  | arr (elems : List Json)
  | obj (entries : List (String × Json))

/-- `Value::as_object`, as the list of entries of the map. -/
def Json.asObject : Json → Option (List (String × Json))
  | .obj entries => some entries
  | _ => none

/-- `Value::as_str`. -/
def Json.asStr : Json → Option String
  | .str s => some s
  | _ => none

/-- `Value::as_u64`: succeeds exactly on integer numbers representable as
`u64`. -/
def Json.asU64 : Json → Option Nat
  | .num n => if 0 ≤ n ∧ n < 2 ^ 64 then some n.toNat else none
  | _ => none

/-- `serde_json::Map::get` on an entry list. -/
def getField (entries : List (String × Json)) (k : String) : Option Json :=
  match entries with
  | [] => none
  | (k0, v) :: rest => if k0 = k then some v else getField rest k

/-! ## Hook views (`request_hook_script.rs` data model) -/

/-- `RequestHookProviderInfo`. -/
structure RequestHookProviderInfo where
  id : String
  name : String
deriving DecidableEq

/-- `RequestHookContext` (read-only script context; `incoming_headers` is
serialized under the wire name `incomingHeaders`). -/
structure RequestHookContext where
  app : String
  method : String
  path : String
  endpoint : String
  url : String
  provider : RequestHookProviderInfo
  incomingHeaders : StrMap
deriving DecidableEq

/-- `HookRequest`: the mutable baseline request view. -/
structure HookRequest where
  headers : StrMap
  queries : StrMap
  body : Json

/-- `HookResponse`: the mutable baseline response view (`code` is a `u16`
in the source). -/
structure HookResponse where
  code : Nat
  headers : StrMap
  body : Json

/-! ## Merge engine (`merge_hook_request` / `merge_hook_response`) -/

/-- The string-map reading loop shared by the `headers`/`queries` blocks of
the merge functions: every value must be a string, keys pass through `f`
(ASCII lowercasing for headers, identity for queries), and the bindings are
inserted into `out`. -/
def readStringMapLoop (path : String) (f : String → String) (out : StrMap) :
    List (String × Json) → Except String StrMap
  | [] => .ok out
  | (k, v) :: rest =>
    match v.asStr with
    | none => .error (path ++ "[" ++ k ++ "] must be a string")
    | some s => readStringMapLoop path f (setVal out (f k) s) rest

/-- The `headers` block of `merge_hook_request`. -/
def mergeRequestHeaders (obj : List (String × Json)) (original : HookRequest) :
    Except String StrMap :=
  match getField obj "headers" with
  | none => .ok original.headers
  | some hv =>
    match hv.asObject with
    | none => .error "request.headers must be an object (Record<string,string>)"
    | some hobj => readStringMapLoop "request.headers" (fun k => toAsciiLower k) [] hobj

/-- The `queries` block of `merge_hook_request` (keys are not case-normalized). -/
def mergeRequestQueries (obj : List (String × Json)) (original : HookRequest) :
    Except String StrMap :=
  match getField obj "queries" with
  | none => .ok original.queries
  | some qv =>
    match qv.asObject with
    | none => .error "request.queries must be an object (Record<string,string>)"
    | some qobj => readStringMapLoop "request.queries" (fun k => k) [] qobj

/-- `merge_hook_request` from `request_hook_script.rs`. -/
def merge_hook_request (result : Json) (original : HookRequest) :
    Except String HookRequest :=
  match result.asObject with
  | none => .error "onRequest must return an object (usually the request)"
  | some obj =>
    match mergeRequestHeaders obj original with
    | .error e => .error e
    | .ok headers =>
      match mergeRequestQueries obj original with
      | .error e => .error e
      | .ok queries =>
        .ok { headers := headers, queries := queries,
              body := (getField obj "body").getD original.body }

/-- The `code` block of `merge_hook_response`: `as_u64` then
`u16::try_from`. -/
def mergeResponseCode (obj : List (String × Json)) (original : HookResponse) :
    Except String Nat :=
  match getField obj "code" with
  | none => .ok original.code
  | some cv =>
    match cv.asU64 with
    | none => .error "response.code must be a number"
    | some n => if n < 65536 then .ok n else .error "response.code out of valid range"

/-- The `headers` block of `merge_hook_response`. -/
def mergeResponseHeaders (obj : List (String × Json)) (original : HookResponse) :
    Except String StrMap :=
  match getField obj "headers" with
  | none => .ok original.headers
  | some hv =>
    match hv.asObject with
    | none => .error "response.headers must be an object (Record<string,string>)"
    | some hobj => readStringMapLoop "response.headers" (fun k => toAsciiLower k) [] hobj

/-- `merge_hook_response` from `request_hook_script.rs`. -/
def merge_hook_response (result : Json) (original : HookResponse) :
    Except String HookResponse :=
  match result.asObject with
  | none => .error "onResponse must return an object (usually the response)"
  | some obj =>
    match mergeResponseCode obj original with
    | .error e => .error e
    | .ok code =>
      match mergeResponseHeaders obj original with
      | .error e => .error e
      | .ok headers =>
        .ok { code := code, headers := headers,
              body := (getField obj "body").getD original.body }

/-! ## Script execution (`execute_on_request_script` / `execute_on_response_script`)

The QuickJS sandbox (the `rquickjs` crate) is external to the repository;
its observable outcome is modelled abstractly: evaluating the script source
either fails or yields a config object with optional `onRequest`/`onResponse`
handlers, and invoking a handler either throws, produces a value on which
`JSON.stringify` yields no string (`undefined`, a function, ...), or
produces a JSON value.  The host pipeline around those outcomes is
translated verbatim from the source. -/

/-- Outcome of invoking a handler inside the sandbox. -/
inductive HandlerResult where
  | throws (msg : String)
  | undef
  | value (v : Json)

/-- The handlers extracted from the evaluated config object (`config.get`
yields `None` both when the property is absent and when it is not a
function). -/
structure HookScriptConfig where
  onRequest : Option (RequestHookContext → HookRequest → HandlerResult)
  onResponse : Option (RequestHookContext → HookResponse → HandlerResult)

/-- Outcome of evaluating the script source to a config object. -/
inductive ScriptEvalResult where
  | evalError (msg : String)
  | config (c : HookScriptConfig)

/-- `execute_on_request_script`: the host pipeline around one sandboxed
`onRequest` invocation.  `JSON.stringify` returning no string (undefined
result) and the literal `"null"` result are both pass-through. -/
def execute_on_request_script (script : ScriptEvalResult)
    (context : RequestHookContext) (request : HookRequest) :
    Except String (Option HookRequest) :=
  match script with
  | .evalError e => .error ("failed to parse script (must eval to an object): " ++ e)
  | .config c =>
    match c.onRequest with
    | none => .ok none
    | some handler =>
      match handler context request with
      | .throws e => .error ("onRequest failed: " ++ e)
      | .undef => .ok none
      | .value .null => .ok none
      | .value v =>
        match merge_hook_request v request with
        | .error e => .error e
        | .ok merged => .ok (some merged)

/-- `execute_on_response_script`: the host pipeline around one sandboxed
`onResponse` invocation. -/
def execute_on_response_script (script : ScriptEvalResult)
    (context : RequestHookContext) (response : HookResponse) :
    Except String (Option HookResponse) :=
  match script with
  | .evalError e => .error ("failed to parse script (must eval to an object): " ++ e)
  | .config c =>
    match c.onResponse with
    | none => .ok none
    | some handler =>
      match handler context response with
      | .throws e => .error ("onResponse failed: " ++ e)
      | .undef => .ok none
      | .value .null => .ok none
      | .value v =>
        match merge_hook_response v response with
        | .error e => .error e
        | .ok merged => .ok (some merged)

/-! ## Header folding (`build_header_string_map`) -/

/-- The `entry(name).and_modify(push ",", push value).or_insert(value)` step
of `build_header_string_map`: append to an existing binding with a comma
separator, else add the binding. -/
def upsertJoin (m : StrMap) (k v : String) : StrMap :=
  match m with
  | [] => [(k, v)]
  | (k0, v0) :: rest =>
    if k0 = k then (k0, v0 ++ "," ++ v) :: rest else (k0, v0) :: upsertJoin rest k v

/-- The folding loop of `build_header_string_map` over the transport
headers (in iteration order). -/
def buildHeaderLoop (out : StrMap) : List (String × String) → StrMap
  | [] => out
  | (k, v) :: rest => buildHeaderLoop (upsertJoin out (toAsciiLower k) v) rest

/-- `build_header_string_map` from `request_hook_script.rs`, with the
transport `HeaderMap` modelled as the list of (name, stringified value)
pairs it yields. -/
def build_header_string_map (headers : List (String × String)) : StrMap :=
  buildHeaderLoop [] headers

/-- The stringified values of the transport headers whose lower-cased name
is `n`, in order (specification device for the folding law). -/
def matchingVals (headers : List (String × String)) (n : String) : List String :=
  headers.filterMap (fun p => if toAsciiLower p.1 = n then some p.2 else none)

/-- Folding a list of values onto an optional accumulated value, comma
separated (specification device for the folding law). -/
def appendVals : Option String → List String → Option String
  | o, [] => o
  | o, v :: vs => appendVals (some (match o with | some e => e ++ "," ++ v | none => v)) vs

theorem findVal_upsertJoin (m : StrMap) (k v q : String) :
    findVal (upsertJoin m k v) q =
      if k = q then
        some (match findVal m q with | some e => e ++ "," ++ v | none => v)
      else findVal m q := by
  induction m with
  | nil =>
    by_cases h : k = q <;> simp [upsertJoin, findVal, h]
  | cons p rest ih =>
    obtain ⟨k0, v0⟩ := p
    by_cases h0 : k0 = k
    · subst h0
      by_cases h : k0 = q <;> simp [upsertJoin, findVal, h, ih]
    · by_cases h : k0 = q
      · subst h
        simp [upsertJoin, findVal, h0, Ne.symm h0]
      · simp [upsertJoin, findVal, h0, h, ih]

theorem upsertJoin_keys_subset (m : StrMap) (k v : String) (p : String × String)
    (hp : p ∈ upsertJoin m k v) : p ∈ m ∨ p.1 = k := by
  induction m with
  | nil =>
    simp [upsertJoin] at hp
    subst hp
    exact Or.inr rfl
  | cons q rest ih =>
    obtain ⟨k0, v0⟩ := q
    by_cases h0 : k0 = k
    · simp [upsertJoin, h0] at hp
      rcases hp with hp | hp
      · exact Or.inr (by simp [hp, h0])
      · exact Or.inl (by simp [hp])
    · simp [upsertJoin, h0] at hp
      rcases hp with hp | hp
      · exact Or.inl (by simp [hp])
      · rcases ih hp with h | h
        · exact Or.inl (by simp [h])
        · exact Or.inr h

theorem findVal_buildHeaderLoop (hs : List (String × String)) (out : StrMap) (n : String) :
    findVal (buildHeaderLoop out hs) n = appendVals (findVal out n) (matchingVals hs n) := by
  induction hs generalizing out with
  | nil => simp [buildHeaderLoop, matchingVals, appendVals]
  | cons p rest ih =>
    obtain ⟨k, v⟩ := p
    rw [buildHeaderLoop, ih, findVal_upsertJoin]
    by_cases hk : toAsciiLower k = n
    · rw [if_pos hk]
      simp only [matchingVals, List.filterMap_cons]
      rw [if_pos hk]
      rfl
    · rw [if_neg hk]
      simp only [matchingVals, List.filterMap_cons]
      rw [if_neg hk]

theorem buildHeaderLoop_keys_lower (hs : List (String × String)) (out : StrMap)
    (hout : ∀ p ∈ out, toAsciiLower p.1 = p.1) :
    ∀ p ∈ buildHeaderLoop out hs, toAsciiLower p.1 = p.1 := by
  induction hs generalizing out with
  | nil => exact hout
  | cons q rest ih =>
    obtain ⟨k, v⟩ := q
    rw [buildHeaderLoop]
    refine ih _ (fun p hp => ?_)
    rcases upsertJoin_keys_subset _ _ _ _ hp with h | h
    · exact hout p h
    · rw [h]
      exact toAsciiLower_idem k

theorem appendVals_some_foldl (vs : List String) (a : String) :
    appendVals (some a) vs = some (vs.foldl (fun acc w => acc ++ "," ++ w) a) := by
  induction vs generalizing a with
  | nil => rfl
  | cons v vs ih => rw [appendVals, List.foldl_cons, ih]

/-! ## Claim theorems: header policy and view builders -/

/-- C7: `is_header_blacklisted` is a pure, total, case-insensitive
membership test: it returns `true` exactly when the ASCII-lower-cased name
is one of the 36 literal entries of the fixed denylist, and `false` for
every other name. -/
theorem c7_denylist_membership :
    HEADER_BLACKLIST.length = 36 ∧
    ∀ name : String,
      is_header_blacklisted name = true ↔ toAsciiLower name ∈ HEADER_BLACKLIST := by
  have hlow : ∀ h ∈ HEADER_BLACKLIST, toAsciiLower h = h := by decide
  refine ⟨rfl, fun name => ?_⟩
  rw [is_header_blacklisted, List.any_eq_true]
  constructor
  · rintro ⟨h, hmem, heq⟩
    rw [eqIgnoreAsciiCase, beq_iff_eq] at heq
    rw [heq, hlow h hmem]
    exact hmem
  · intro hm
    exact ⟨toAsciiLower name, hm,
      by rw [eqIgnoreAsciiCase, beq_iff_eq]; exact (toAsciiLower_idem name).symm⟩

/-- Witness for C7 at concrete names: a mixed-case denylisted name is
accepted, a foreign name is rejected. -/
theorem c7_denylist_membership_witness :
    is_header_blacklisted "AuThOrIzAtIoN" = true ∧
    ¬ is_header_blacklisted "user-agent" = true :=
  ⟨((c7_denylist_membership.2 "AuThOrIzAtIoN").mpr (by decide)),
   fun h => by have := (c7_denylist_membership.2 "user-agent").mp h; revert this; decide⟩

/-- C8: header folding.  For every transport header sequence, the value
`build_header_string_map` associates to a name `n` is exactly the
comma-join, in order, of the values of all transport headers whose
lower-cased name is `n` (so a repeated name has each later value appended
to the earlier accumulated value separated by a comma), and every key of
the resulting map is ASCII-lower-cased. -/
theorem c8_header_folding (hs : List (String × String)) (n : String) :
    (findVal (build_header_string_map hs) n =
      match matchingVals hs n with
      | [] => none
      | v :: vs => some (vs.foldl (fun acc w => acc ++ "," ++ w) v)) ∧
    ∀ p ∈ build_header_string_map hs, toAsciiLower p.1 = p.1 := by
  constructor
  · rw [build_header_string_map, findVal_buildHeaderLoop]
    cases hm : matchingVals hs n with
    | nil => rfl
    | cons v vs =>
      show appendVals (some v) vs = _
      exact appendVals_some_foldl vs v
  · exact buildHeaderLoop_keys_lower hs [] (by simp)

/-- Witness for C8: two spellings of the same header name fold into one
comma-joined, lower-cased binding. -/
theorem c8_header_folding_witness :
    findVal (build_header_string_map [("X-Foo", "a"), ("x-FOO", "b")]) "x-foo" =
      some "a,b" ∧
    toAsciiLower "x-foo" = "x-foo" :=
  ⟨((c8_header_folding [("X-Foo", "a"), ("x-FOO", "b")] "x-foo").1).trans (by rfl),
   (c8_header_folding [("X-Foo", "a"), ("x-FOO", "b")] "x-foo").2 ("x-foo", "a,b")
     (by decide)⟩

/-! ## Concrete values from the specification's scenarios -/

/-- The context used by the source's own tests. -/
def specContext : RequestHookContext :=
  { app := "codex", method := "POST", path := "/v1/responses",
    endpoint := "/v1/responses", url := "https://api.openai.com/v1/responses",
    provider := { id := "p1", name := "Provider" }, incomingHeaders := [] }

/-- A small baseline request view. -/
def specRequest : HookRequest :=
  { headers := [("x-test", "1")], queries := [], body := .obj [("ok", .bool true)] }

/-- The baseline response of the specification's response scenario:
`{code: 200, headers: {"content-type": "application/json"}, body: {"ok": true}}`. -/
def specBaselineResponse : HookResponse :=
  { code := 200, headers := [("content-type", "application/json")],
    body := .obj [("ok", .bool true)] }

/-- The handler return value of the specification's response scenario:
`{headers: {"x-hook-response": "ok"}, code: 404, body: {"ok": false}}`. -/
def specReturnedResponse : Json :=
  .obj [ ("headers", .obj [("x-hook-response", .str "ok")])
       , ("code", .num 404)
       , ("body", .obj [("ok", .bool false)]) ]

/-! ## Claim theorems: sandbox pipeline and merge engine -/

/-- C3: pass-through.  For every context and baseline view, if the
evaluated script object exposes no handler for the current stage, or the
handler returns undefined or an explicit null, the run function returns
`Ok(None)` (baseline forwarded unchanged); being a function of its
arguments, the outcome is deterministic. -/
theorem c3_pass_through :
    (∀ (c : HookScriptConfig) (ctx : RequestHookContext) (req : HookRequest),
       c.onRequest = none →
       execute_on_request_script (.config c) ctx req = .ok none) ∧
    (∀ (c : HookScriptConfig) (ctx : RequestHookContext) (resp : HookResponse),
       c.onResponse = none →
       execute_on_response_script (.config c) ctx resp = .ok none) ∧
    (∀ (c : HookScriptConfig) h (ctx : RequestHookContext) (req : HookRequest),
       c.onRequest = some h → h ctx req = .undef →
       execute_on_request_script (.config c) ctx req = .ok none) ∧
    (∀ (c : HookScriptConfig) h (ctx : RequestHookContext) (req : HookRequest),
       c.onRequest = some h → h ctx req = .value .null →
       execute_on_request_script (.config c) ctx req = .ok none) ∧
    (∀ (c : HookScriptConfig) h (ctx : RequestHookContext) (resp : HookResponse),
       c.onResponse = some h → h ctx resp = .undef →
       execute_on_response_script (.config c) ctx resp = .ok none) ∧
    (∀ (c : HookScriptConfig) h (ctx : RequestHookContext) (resp : HookResponse),
       c.onResponse = some h → h ctx resp = .value .null →
       execute_on_response_script (.config c) ctx resp = .ok none) := by
  refine ⟨?_, ?_, ?_, ?_, ?_, ?_⟩
  · intro c ctx req h1
    simp [execute_on_request_script, h1]
  · intro c ctx resp h1
    simp [execute_on_response_script, h1]
  · intro c h ctx req h1 h2
    simp [execute_on_request_script, h1, h2]
  · intro c h ctx req h1 h2
    simp [execute_on_request_script, h1, h2]
  · intro c h ctx resp h1 h2
    simp [execute_on_response_script, h1, h2]
  · intro c h ctx resp h1 h2
    simp [execute_on_response_script, h1, h2]

/-- Witness for C3: a script with no handlers and a script whose
`onRequest` returns undefined both pass through. -/
theorem c3_pass_through_witness :
    execute_on_request_script (.config { onRequest := none, onResponse := none })
      specContext specRequest = .ok none ∧
    execute_on_request_script
      (.config { onRequest := some (fun _ _ => .undef), onResponse := none })
      specContext specRequest = .ok none :=
  ⟨c3_pass_through.1 _ specContext specRequest rfl,
   c3_pass_through.2.2.1 _ _ specContext specRequest rfl rfl⟩

/-- Returned values that are JSON values but not objects and not null:
strings, numbers, arrays, booleans (specification device for C5). -/
def isNonObjectScalar (v : Json) : Prop :=
  match v with
  | .str _ => True
  | .num _ => True
  | .decimalLit _ => True
  | .bool _ => True
  | .arr _ => True
  | _ => False

/-- C5: shape error.  Whenever a handler returns a non-object JSON value
(string, number, array, or boolean), the run function returns an error —
never a silent pass-through and never a merged view. -/
theorem c5_shape_error :
    (∀ (c : HookScriptConfig) h (ctx : RequestHookContext) (req : HookRequest) v,
       c.onRequest = some h → h ctx req = .value v → isNonObjectScalar v →
       ∃ e, execute_on_request_script (.config c) ctx req = .error e) ∧
    (∀ (c : HookScriptConfig) h (ctx : RequestHookContext) (resp : HookResponse) v,
       c.onResponse = some h → h ctx resp = .value v → isNonObjectScalar v →
       ∃ e, execute_on_response_script (.config c) ctx resp = .error e) := by
  constructor
  · intro c h ctx req v h1 h2 hv
    cases v <;> simp [isNonObjectScalar] at hv <;>
      exact ⟨_, by simp [execute_on_request_script, h1, h2,
        merge_hook_request, Json.asObject]; rfl⟩
  · intro c h ctx resp v h1 h2 hv
    cases v <;> simp [isNonObjectScalar] at hv <;>
      exact ⟨_, by simp [execute_on_response_script, h1, h2,
        merge_hook_response, Json.asObject]; rfl⟩

/-- Witness for C5: a handler returning the string `"nope"` makes the run
function fail. -/
theorem c5_shape_error_witness :
    ∃ e, execute_on_request_script
      (.config { onRequest := some (fun _ _ => .value (.str "nope")), onResponse := none })
      specContext specRequest = .error e :=
  c5_shape_error.1 _ _ specContext specRequest (.str "nope") rfl rfl trivial

/-- C1: wholesale replacement.  On the specification's concrete scenario the
merged response carries exactly the returned values (`code = 404`, headers
exactly `{"x-hook-response": "ok"}` with `content-type` absent, body
`{"ok": false}`); and in general a present `headers` field makes the merged
headers the map read from the returned object alone (keys ASCII
lower-cased), with the baseline headers discarded. -/
theorem c1_wholesale_replacement :
    merge_hook_response specReturnedResponse specBaselineResponse =
      .ok { code := 404, headers := [("x-hook-response", "ok")],
            body := .obj [("ok", .bool false)] } ∧
    ∀ (obj : List (String × Json)) (original m : HookResponse) hv hobj,
      getField obj "headers" = some hv → hv.asObject = some hobj →
      merge_hook_response (.obj obj) original = .ok m →
      readStringMapLoop "response.headers" (fun k => toAsciiLower k) [] hobj =
        .ok m.headers := by
  constructor
  · rfl
  · intro obj original m hv hobj h1 h2 h3
    simp only [merge_hook_response, Json.asObject] at h3
    cases hc : mergeResponseCode obj original with
    | error e => rw [hc] at h3; simp at h3
    | ok code =>
      rw [hc] at h3
      have hh : mergeResponseHeaders obj original =
          readStringMapLoop "response.headers" (fun k => toAsciiLower k) [] hobj := by
        simp only [mergeResponseHeaders, h1, h2]
      cases hr : readStringMapLoop "response.headers" (fun k => toAsciiLower k) [] hobj with
      | error e => rw [hh, hr] at h3; simp at h3
      | ok hds =>
        rw [hh, hr] at h3
        simp only [Except.ok.injEq] at h3
        subst h3
        rfl

/-- Witness for C1: the general replacement law applied to the concrete
scenario. -/
theorem c1_wholesale_replacement_witness :
    readStringMapLoop "response.headers" (fun k => toAsciiLower k) []
      [("x-hook-response", Json.str "ok")] = .ok [("x-hook-response", "ok")] :=
  c1_wholesale_replacement.2
    [ ("headers", .obj [("x-hook-response", .str "ok")])
    , ("code", .num 404)
    , ("body", .obj [("ok", .bool false)]) ]
    specBaselineResponse
    { code := 404, headers := [("x-hook-response", "ok")],
      body := .obj [("ok", .bool false)] }
    (.obj [("x-hook-response", .str "ok")])
    [("x-hook-response", Json.str "ok")]
    rfl rfl c1_wholesale_replacement.1

/-- C2: omission law.  A field the returned object omits keeps the
baseline's value in the merged view; a present `body` field replaces the
baseline body wholesale. -/
theorem c2_omission_law :
    (∀ (obj : List (String × Json)) (original m : HookRequest),
       merge_hook_request (.obj obj) original = .ok m →
       (getField obj "headers" = none → m.headers = original.headers) ∧
       (getField obj "queries" = none → m.queries = original.queries) ∧
       (getField obj "body" = none → m.body = original.body) ∧
       (∀ v, getField obj "body" = some v → m.body = v)) ∧
    (∀ (obj : List (String × Json)) (original m : HookResponse),
       merge_hook_response (.obj obj) original = .ok m →
       (getField obj "code" = none → m.code = original.code) ∧
       (getField obj "headers" = none → m.headers = original.headers) ∧
       (getField obj "body" = none → m.body = original.body) ∧
       (∀ v, getField obj "body" = some v → m.body = v)) := by
  constructor
  · intro obj original m hm
    simp only [merge_hook_request, Json.asObject] at hm
    cases hh : mergeRequestHeaders obj original with
    | error e => rw [hh] at hm; simp at hm
    | ok hds =>
      rw [hh] at hm
      cases hq : mergeRequestQueries obj original with
      | error e => rw [hq] at hm; simp at hm
      | ok qs =>
        rw [hq] at hm
        simp only [Except.ok.injEq] at hm
        subst hm
        refine ⟨?_, ?_, ?_, ?_⟩
        · intro hnone
          simp only [mergeRequestHeaders, hnone, Except.ok.injEq] at hh
          exact hh.symm
        · intro hnone
          simp only [mergeRequestQueries, hnone, Except.ok.injEq] at hq
          exact hq.symm
        · intro hnone
          simp [hnone]
        · intro v hv
          simp [hv]
  · intro obj original m hm
    simp only [merge_hook_response, Json.asObject] at hm
    cases hc : mergeResponseCode obj original with
    | error e => rw [hc] at hm; simp at hm
    | ok code =>
      rw [hc] at hm
      cases hh : mergeResponseHeaders obj original with
      | error e => rw [hh] at hm; simp at hm
      | ok hds =>
        rw [hh] at hm
        simp only [Except.ok.injEq] at hm
        subst hm
        refine ⟨?_, ?_, ?_, ?_⟩
        · intro hnone
          simp only [mergeResponseCode, hnone, Except.ok.injEq] at hc
          exact hc.symm
        · intro hnone
          simp only [mergeResponseHeaders, hnone, Except.ok.injEq] at hh
          exact hh.symm
        · intro hnone
          simp [hnone]
        · intro v hv
          simp [hv]

/-- Witness for C2: merging the empty returned object leaves every field of
the baseline request untouched. -/
theorem c2_omission_law_witness :
    specRequest.headers = specRequest.headers ∧
    specRequest.queries = specRequest.queries ∧
    specRequest.body = specRequest.body := by
  have h := c2_omission_law.1 [] specRequest specRequest rfl
  exact ⟨h.1 rfl, h.2.1 rfl, h.2.2.1 rfl⟩

/-- `as_u64` on a `u64`-sized integer (helper). -/
theorem asU64_natCast (n : Nat) (h : (n : Int) < 2 ^ 64) :
    (Json.num (n : Int)).asU64 = some n := by
  simp [Json.asU64, h]
  omega

/-- `as_u64` on an oversized integer (helper). -/
theorem asU64_natCast_big (n : Nat) (h : ¬ (n : Int) < 2 ^ 64) :
    (Json.num (n : Int)).asU64 = none := by
  simp [Json.asU64, h]
  omega

/-- `as_u64` on a negative integer (helper). -/
theorem asU64_neg (i : Int) (h : i < 0) : (Json.num i).asU64 = none := by
  have hpos : ¬ ((0 : Int) ≤ i) := by omega
  simp [Json.asU64, hpos]

/-- C4: response status-code range.  A merged-through `code` field is
always an integer below 65536 and the merged code equals it (so 65535 is
accepted); an integer 65536 or larger, a negative integer, and a
non-integral number each make the whole merge return an error rather than
a merged view. -/
theorem c4_response_code_range :
    (merge_hook_response (.obj [("code", .num 65535)]) specBaselineResponse =
       .ok { code := 65535, headers := specBaselineResponse.headers,
             body := specBaselineResponse.body }) ∧
    (∀ (obj : List (String × Json)) (original m : HookResponse) cv,
       merge_hook_response (.obj obj) original = .ok m →
       getField obj "code" = some cv →
       ∃ n, cv.asU64 = some n ∧ n < 65536 ∧ m.code = n) ∧
    (∀ (obj : List (String × Json)) (original : HookResponse) (n : Nat),
       getField obj "code" = some (.num (n : Int)) → 65536 ≤ n →
       ∃ e, merge_hook_response (.obj obj) original = .error e) ∧
    (∀ (obj : List (String × Json)) (original : HookResponse) (i : Int),
       i < 0 → getField obj "code" = some (.num i) →
       ∃ e, merge_hook_response (.obj obj) original = .error e) ∧
    (∀ (obj : List (String × Json)) (original : HookResponse) (lit : String),
       getField obj "code" = some (.decimalLit lit) →
       ∃ e, merge_hook_response (.obj obj) original = .error e) := by
  have main : ∀ (obj : List (String × Json)) (original m : HookResponse) cv,
      merge_hook_response (.obj obj) original = .ok m →
      getField obj "code" = some cv →
      ∃ n, cv.asU64 = some n ∧ n < 65536 ∧ m.code = n := by
    intro obj original m cv hm hcv
    simp only [merge_hook_response, Json.asObject] at hm
    cases hc : mergeResponseCode obj original with
    | error e => rw [hc] at hm; simp at hm
    | ok code =>
      rw [hc] at hm
      cases hh : mergeResponseHeaders obj original with
      | error e => rw [hh] at hm; simp at hm
      | ok hds =>
        rw [hh] at hm
        simp only [Except.ok.injEq] at hm
        subst hm
        simp only [mergeResponseCode, hcv] at hc
        cases hu : cv.asU64 with
        | none => rw [hu] at hc; simp at hc
        | some n =>
          simp only [hu] at hc
          by_cases hlt : n < 65536
          · rw [if_pos hlt] at hc
            simp only [Except.ok.injEq] at hc
            exact ⟨n, rfl, hlt, hc.symm⟩
          · rw [if_neg hlt] at hc
            simp at hc
  refine ⟨by rfl, main, ?_, ?_, ?_⟩
  · intro obj original n hcv hge
    cases hm : merge_hook_response (.obj obj) original with
    | error e => exact ⟨e, rfl⟩
    | ok m =>
      exfalso
      obtain ⟨q, hq, hlt, _⟩ := main obj original m _ hm hcv
      by_cases hbig : (n : Int) < 2 ^ 64
      · rw [asU64_natCast n hbig] at hq
        simp only [Option.some.injEq] at hq
        omega
      · rw [asU64_natCast_big n hbig] at hq
        simp at hq
  · intro obj original i hneg hcv
    cases hm : merge_hook_response (.obj obj) original with
    | error e => exact ⟨e, rfl⟩
    | ok m =>
      exfalso
      obtain ⟨q, hq, hlt, _⟩ := main obj original m _ hm hcv
      rw [asU64_neg i hneg] at hq
      simp at hq
  · intro obj original lit hcv
    cases hm : merge_hook_response (.obj obj) original with
    | error e => exact ⟨e, rfl⟩
    | ok m =>
      exfalso
      obtain ⟨q, hq, hlt, _⟩ := main obj original m _ hm hcv
      simp [Json.asU64] at hq

/-- Witness for C4: 65535 is accepted with merged code 65535; 65536, -1 and
the non-integral 3.5 are each rejected. -/
theorem c4_response_code_range_witness :
    (∃ n, (Json.num 65535).asU64 = some n ∧ n < 65536 ∧
      (65535 : Nat) = n) ∧
    (∃ e, merge_hook_response (.obj [("code", .num 65536)]) specBaselineResponse =
      .error e) ∧
    (∃ e, merge_hook_response (.obj [("code", .num (-1))]) specBaselineResponse =
      .error e) ∧
    (∃ e, merge_hook_response (.obj [("code", .decimalLit "3.5")]) specBaselineResponse =
      .error e) := by
  refine ⟨?_, ?_, ?_, ?_⟩
  · exact c4_response_code_range.2.1 [("code", .num 65535)] specBaselineResponse
      { code := 65535, headers := specBaselineResponse.headers,
        body := specBaselineResponse.body }
      (.num 65535) c4_response_code_range.1 rfl
  · exact c4_response_code_range.2.2.1 [("code", .num 65536)] specBaselineResponse
      65536 rfl (by omega)
  · exact c4_response_code_range.2.2.2.1 [("code", .num (-1))] specBaselineResponse
      (-1) (by omega) rfl
  · exact c4_response_code_range.2.2.2.2 [("code", .decimalLit "3.5")]
      specBaselineResponse "3.5" rfl

/-- C9: the merges read only the recognized fields of the returned object —
two returned objects that agree on `headers`/`queries`/`body` (request) or
`code`/`headers`/`body` (response) merge identically against any baseline,
so any other key is ignored and never an error. -/
theorem c9_recognized_fields_only :
    (∀ (o1 o2 : List (String × Json)) (original : HookRequest),
       getField o1 "headers" = getField o2 "headers" →
       getField o1 "queries" = getField o2 "queries" →
       getField o1 "body" = getField o2 "body" →
       merge_hook_request (.obj o1) original = merge_hook_request (.obj o2) original) ∧
    (∀ (o1 o2 : List (String × Json)) (original : HookResponse),
       getField o1 "code" = getField o2 "code" →
       getField o1 "headers" = getField o2 "headers" →
       getField o1 "body" = getField o2 "body" →
       merge_hook_response (.obj o1) original = merge_hook_response (.obj o2) original) := by
  constructor
  · intro o1 o2 original h1 h2 h3
    have e1 : mergeRequestHeaders o1 original = mergeRequestHeaders o2 original := by
      simp only [mergeRequestHeaders, h1]
    have e2 : mergeRequestQueries o1 original = mergeRequestQueries o2 original := by
      simp only [mergeRequestQueries, h2]
    simp only [merge_hook_request, Json.asObject, e1, e2, h3]
  · intro o1 o2 original h1 h2 h3
    have e1 : mergeResponseCode o1 original = mergeResponseCode o2 original := by
      simp only [mergeResponseCode, h1]
    have e2 : mergeResponseHeaders o1 original = mergeResponseHeaders o2 original := by
      simp only [mergeResponseHeaders, h2]
    simp only [merge_hook_response, Json.asObject, e1, e2, h3]

/-- Witness for C9: an unrecognized key merges exactly like the empty
object. -/
theorem c9_recognized_fields_only_witness :
    merge_hook_request (.obj [("extra", .num 1)]) specRequest =
      merge_hook_request (.obj []) specRequest :=
  c9_recognized_fields_only.1 [("extra", .num 1)] [] specRequest rfl rfl rfl

/-! ## URL query model (`build_query_string_map_from_url` /
`apply_query_string_map_to_url`)

The `url` crate is external to the repository; what the two source
functions use of it is modelled at the character level: a URL splits at
the first `?` into a base (which must start with a scheme and a colon)
and a query string; `query_pairs` yields the `&`-separated non-empty
components split at the first `=`; `query_pairs_mut().clear()` followed by
`append_pair` rebuilds the query from pairs.  Percent-coding is not
modelled: it is a bijection applied on top of this pair structure and the
claims under study are stated at the pair level. -/

/-- Split a character list at every occurrence of `sep`. -/
def splitSep (sep : Char) : List Char → List (List Char)
  | [] => [[]]
  | c :: cs =>
    if c = sep then [] :: splitSep sep cs
    else
      match splitSep sep cs with
      | [] => [[c]]
      | p :: ps => (c :: p) :: ps

/-- Join character lists with `sep` between consecutive items. -/
def joinSep (sep : Char) : List (List Char) → List Char
  | [] => []
  | [x] => x
  | x :: y :: ys => x ++ sep :: joinSep sep (y :: ys)

theorem splitSep_ne_nil (sep : Char) (l : List Char) : splitSep sep l ≠ [] := by
  induction l with
  | nil => simp [splitSep]
  | cons c cs ih =>
    by_cases h : c = sep
    · simp [splitSep, h]
    · rw [splitSep, if_neg h]
      cases hs : splitSep sep cs with
      | nil => simp
      | cons p ps => simp

theorem splitSep_no_sep (sep : Char) (l : List Char) (h : sep ∉ l) :
    splitSep sep l = [l] := by
  induction l with
  | nil => rfl
  | cons c cs ih =>
    have hc : ¬ c = sep := fun he => h (he ▸ List.mem_cons_self c cs)
    have hcs : sep ∉ cs := fun hm => h (List.mem_cons_of_mem c hm)
    rw [splitSep, if_neg hc, ih hcs]

theorem splitSep_append (sep : Char) (l r : List Char) (h : sep ∉ l) :
    splitSep sep (l ++ sep :: r) = l :: splitSep sep r := by
  induction l with
  | nil => simp [splitSep]
  | cons c cs ih =>
    have hc : ¬ c = sep := fun he => h (he ▸ List.mem_cons_self c cs)
    have hcs : sep ∉ cs := fun hm => h (List.mem_cons_of_mem c hm)
    rw [List.cons_append, splitSep, if_neg hc, ih hcs]

theorem mem_splitSep_no_sep (sep : Char) (l : List Char) (p : List Char)
    (hp : p ∈ splitSep sep l) : sep ∉ p := by
  induction l generalizing p with
  | nil =>
    simp [splitSep] at hp
    subst hp
    simp
  | cons c cs ih =>
    by_cases h : c = sep
    · rw [splitSep, if_pos h] at hp
      rcases List.mem_cons.mp hp with hh | hh
      · subst hh; simp
      · exact ih p hh
    · rw [splitSep, if_neg h] at hp
      cases hs : splitSep sep cs with
      | nil => exact absurd hs (splitSep_ne_nil sep cs)
      | cons q qs =>
        rw [hs] at hp
        rcases List.mem_cons.mp hp with hh | hh
        · subst hh
          intro hmem
          rcases List.mem_cons.mp hmem with he | he
          · exact h he.symm
          · exact ih q (hs ▸ List.mem_cons_self q qs) he
        · exact ih p (hs ▸ List.mem_cons_of_mem q hh)

theorem joinSep_cons_cons (sep : Char) (x y : List Char) (ys : List (List Char)) :
    joinSep sep (x :: y :: ys) = x ++ sep :: joinSep sep (y :: ys) := rfl

/-- Drop a single leading `=` (the separator left by `dropWhile`). -/
def chopEq (l : List Char) : List Char :=
  match l with
  | c :: v => if c = '=' then v else l
  | [] => l

/-- Split one query component at its first `=` (key, value); a component
without `=` has an empty value. -/
def parsePair (p : List Char) : List Char × List Char :=
  (p.takeWhile (fun c => c != '='), chopEq (p.dropWhile (fun c => c != '=')))

/-- The pairs of a raw query string: `&`-separated non-empty components,
each split at its first `=` (model of `Url::query_pairs`). -/
def parseQueryChars (q : List Char) : List (List Char × List Char) :=
  ((splitSep '&' q).filter (fun p => !p.isEmpty)).map parsePair

/-- One `append_pair` serialization step. -/
def serializePair (p : List Char × List Char) : List Char := p.1 ++ '=' :: p.2

/-- The query string rebuilt from pairs (model of
`query_pairs_mut().clear()` followed by `append_pair` per entry). -/
def serializeQueryChars (ps : List (List Char × List Char)) : List Char :=
  joinSep '&' (ps.map serializePair)

/-- Pairs whose components cannot clash with the separators: every pair
produced by `parseQueryChars` is of this shape. -/
def okPair (p : List Char × List Char) : Prop :=
  '&' ∉ p.1 ∧ '=' ∉ p.1 ∧ '&' ∉ p.2

theorem takeWhile_ne_append (x : Char) (l r : List Char) (h : x ∉ l) :
    (l ++ x :: r).takeWhile (fun c => c != x) = l := by
  induction l with
  | nil => simp [List.takeWhile]
  | cons c cs ih =>
    have hc : ¬ c = x := fun he => h (he ▸ List.mem_cons_self c cs)
    have hcs : x ∉ cs := fun hm => h (List.mem_cons_of_mem c hm)
    simp only [List.cons_append, List.takeWhile_cons]
    rw [if_pos (by simpa using hc), ih hcs]

theorem dropWhile_ne_append (x : Char) (l r : List Char) (h : x ∉ l) :
    (l ++ x :: r).dropWhile (fun c => c != x) = x :: r := by
  induction l with
  | nil => simp [List.dropWhile]
  | cons c cs ih =>
    have hc : ¬ c = x := fun he => h (he ▸ List.mem_cons_self c cs)
    have hcs : x ∉ cs := fun hm => h (List.mem_cons_of_mem c hm)
    simp only [List.cons_append, List.dropWhile_cons]
    rw [if_pos (by simpa using hc), ih hcs]

theorem not_mem_takeWhile_ne (x : Char) (l : List Char) :
    x ∉ l.takeWhile (fun c => c != x) := by
  induction l with
  | nil => simp [List.takeWhile]
  | cons c cs ih =>
    simp only [List.takeWhile_cons]
    by_cases hc : c = x
    · subst hc
      simp
    · rw [if_pos (by simpa using hc)]
      intro hmem
      rcases List.mem_cons.mp hmem with he | he
      · exact hc he.symm
      · exact ih he

theorem parsePair_serializePair (p : List Char × List Char) (h : okPair p) :
    parsePair (serializePair p) = p := by
  obtain ⟨k, v⟩ := p
  obtain ⟨h1, h2, h3⟩ := h
  simp only [serializePair, parsePair]
  rw [takeWhile_ne_append '=' k v h2, dropWhile_ne_append '=' k v h2]
  simp [chopEq]

theorem amp_not_mem_serializePair (p : List Char × List Char) (h : okPair p) :
    '&' ∉ serializePair p := by
  obtain ⟨k, v⟩ := p
  obtain ⟨h1, h2, h3⟩ := h
  simp only [serializePair]
  intro hmem
  rcases List.mem_append.mp hmem with hm | hm
  · exact h1 hm
  · rcases List.mem_cons.mp hm with he | he
    · exact absurd he (by decide)
    · exact h3 he

theorem serializePair_not_isEmpty (p : List Char × List Char) :
    (!(serializePair p).isEmpty) = true := by
  obtain ⟨k, v⟩ := p
  cases k <;> simp [serializePair]

theorem parseQuery_serializeQuery (ps : List (List Char × List Char))
    (h : ∀ p ∈ ps, okPair p) :
    parseQueryChars (serializeQueryChars ps) = ps := by
  induction ps with
  | nil => rfl
  | cons x xs ih =>
    have hx : okPair x := h x (List.mem_cons_self x xs)
    cases xs with
    | nil =>
      show parseQueryChars (joinSep '&' [serializePair x]) = [x]
      rw [joinSep, parseQueryChars,
        splitSep_no_sep '&' _ (amp_not_mem_serializePair x hx),
        List.filter_cons_of_pos (p := fun (l : List Char) => !l.isEmpty) (serializePair_not_isEmpty x)]
      simp [parsePair_serializePair x hx]
    | cons y ys =>
      show parseQueryChars
          (joinSep '&' (serializePair x :: serializePair y ::
            List.map serializePair ys)) = x :: y :: ys
      rw [joinSep_cons_cons, parseQueryChars,
        splitSep_append '&' _ _ (amp_not_mem_serializePair x hx),
        List.filter_cons_of_pos (p := fun (l : List Char) => !l.isEmpty) (serializePair_not_isEmpty x),
        List.map_cons]
      rw [parsePair_serializePair x hx]
      have ht := ih (fun p hp => h p (List.mem_cons_of_mem x hp))
      rw [parseQueryChars, serializeQueryChars] at ht
      simp only [List.map_cons] at ht
      rw [ht]

theorem okPair_of_mem_parseQuery (q : List Char) (p : List Char × List Char)
    (hp : p ∈ parseQueryChars q) : okPair p := by
  simp only [parseQueryChars, List.mem_map, List.mem_filter] at hp
  obtain ⟨part, ⟨hpart, hne⟩, heq⟩ := hp
  subst heq
  have hamp : '&' ∉ part := mem_splitSep_no_sep '&' q part hpart
  refine ⟨?_, ?_, ?_⟩
  · intro hm
    exact hamp (List.takeWhile_subset _ hm)
  · exact not_mem_takeWhile_ne '=' part
  · intro hm
    have hsub : ∀ c, c ∈ chopEq (part.dropWhile (fun c => c != '=')) → c ∈ part := by
      intro c hc
      apply List.dropWhile_subset (fun c => c != '=')
      cases hd : part.dropWhile (fun c => c != '=') with
      | nil => rw [hd] at hc; exact absurd hc (by simp [chopEq])
      | cons d ds =>
        rw [hd] at hc
        simp only [chopEq] at hc
        by_cases hde : d = '='
        · rw [if_pos hde] at hc
          exact List.mem_cons_of_mem d hc
        · rw [if_neg hde] at hc
          exact hc
    exact hamp (hsub '&' hm)

/-- Characters allowed in a URL scheme after the first letter. -/
def isSchemeChar (c : Char) : Bool :=
  c.isAlpha || c.isDigit || c == '+' || c == '-' || c == '.'

/-- A base (the part before any `?`) is acceptable to `Url::parse` when it
starts with a letter-led scheme followed by a colon. -/
def validSchemeBase (base : List Char) : Bool :=
  let scheme := base.takeWhile (fun c => c != ':')
  decide (scheme.length < base.length) && !scheme.isEmpty &&
    scheme.all isSchemeChar && (match scheme with | c :: _ => c.isAlpha | [] => false)

/-- Model of a parsed `url::Url`: the base before the query separator, and
the query pairs. -/
structure UrlModel where
  base : List Char
  query : List (List Char × List Char)

/-- Drop a single leading `?` (the separator left by `dropWhile`). -/
def chopQm (l : List Char) : List Char :=
  match l with
  | c :: r => if c = '?' then r else l
  | [] => l

/-- Model of `url::Url::parse`: split at the first `?`, require a valid
scheme-led base, and parse the query pairs. -/
def parseUrl (s : String) : Option UrlModel :=
  let cs := s.data
  let base := cs.takeWhile (fun c => c != '?')
  if validSchemeBase base then
    some { base := base
         , query := parseQueryChars (chopQm (cs.dropWhile (fun c => c != '?'))) }
  else none

/-- Model of `Url::to_string` after `query_pairs_mut().clear()` and one
`append_pair` per entry. -/
def urlToString (base : List Char) (ps : List (List Char × List Char)) : String :=
  String.mk (base ++ '?' :: serializeQueryChars ps)

/-- The `output.insert(key, value)` loop of `build_query_string_map_from_url`
over the parsed query pairs (last value wins). -/
def buildQueryLoop (out : StrMap) : List (List Char × List Char) → StrMap
  | [] => out
  | (k, v) :: rest => buildQueryLoop (setVal out (String.mk k) (String.mk v)) rest

/-- `build_query_string_map_from_url` from `request_hook_script.rs`: on a
parse failure it silently returns the empty map. -/
def build_query_string_map_from_url (url : String) : StrMap :=
  match parseUrl url with
  | none => []
  | some u => buildQueryLoop [] u.query

/-- `apply_query_string_map_to_url` from `request_hook_script.rs`: on a
parse failure it reports an error; otherwise it clears the query and
appends one pair per map entry. -/
def apply_query_string_map_to_url (url : String) (queries : StrMap) :
    Except String String :=
  match parseUrl url with
  | none => .error "failed to parse URL"
  | some u => .ok (urlToString u.base (queries.map (fun p => (p.1.data, p.2.data))))

/-- The value of the last pair with key `k`, if any (specification device
for last-value-wins). -/
def lastValue (ps : List (List Char × List Char)) (k : String) : Option String :=
  match ps with
  | [] => none
  | (a, b) :: rest =>
    match lastValue rest k with
    | some v => some v
    | none => if String.mk a = k then some (String.mk b) else none

theorem findVal_buildQueryLoop (ps : List (List Char × List Char)) (out : StrMap)
    (k : String) :
    findVal (buildQueryLoop out ps) k =
      match lastValue ps k with
      | some v => some v
      | none => findVal out k := by
  induction ps generalizing out with
  | nil => rfl
  | cons p rest ih =>
    obtain ⟨a, b⟩ := p
    rw [buildQueryLoop, ih]
    show _ = match (match lastValue rest k with
      | some v => some v
      | none => if String.mk a = k then some (String.mk b) else none) with
      | some v => some v
      | none => findVal out k
    cases hl : lastValue rest k with
    | some v => rfl
    | none =>
      rw [findVal_setVal]
      by_cases ha : String.mk a = k <;> simp [ha]

theorem setVal_mem (m : StrMap) (k v : String) (p : String × String)
    (hp : p ∈ setVal m k v) : p ∈ m ∨ p = (k, v) := by
  induction m with
  | nil =>
    simp [setVal] at hp
    exact Or.inr hp
  | cons q rest ih =>
    obtain ⟨k0, v0⟩ := q
    by_cases h0 : k0 = k
    · rw [setVal, if_pos h0] at hp
      rcases List.mem_cons.mp hp with hh | hh
      · exact Or.inr (by rw [hh, h0])
      · exact Or.inl (List.mem_cons_of_mem _ hh)
    · rw [setVal, if_neg h0] at hp
      rcases List.mem_cons.mp hp with hh | hh
      · exact Or.inl (by rw [hh]; exact List.mem_cons_self _ _)
      · rcases ih hh with h | h
        · exact Or.inl (List.mem_cons_of_mem _ h)
        · exact Or.inr h

theorem buildQueryLoop_mem (ps : List (List Char × List Char)) (out : StrMap)
    (p : String × String) (hp : p ∈ buildQueryLoop out ps) :
    p ∈ out ∨ ∃ q ∈ ps, p = (String.mk q.1, String.mk q.2) := by
  induction ps generalizing out with
  | nil => exact Or.inl hp
  | cons q rest ih =>
    obtain ⟨a, b⟩ := q
    rw [buildQueryLoop] at hp
    rcases ih _ hp with h | ⟨r, hr, he⟩
    · rcases setVal_mem _ _ _ _ h with h2 | h2
      · exact Or.inl h2
      · exact Or.inr ⟨(a, b), List.mem_cons_self _ _, h2⟩
    · exact Or.inr ⟨r, List.mem_cons_of_mem _ hr, he⟩

theorem setVal_of_not_mem (m : StrMap) (k v : String)
    (h : k ∉ m.map Prod.fst) : setVal m k v = m ++ [(k, v)] := by
  induction m with
  | nil => rfl
  | cons q rest ih =>
    obtain ⟨k0, v0⟩ := q
    have h0 : ¬ k0 = k := by
      intro he
      exact h (by simp [he])
    rw [setVal, if_neg h0, ih (fun hm => h (List.mem_cons_of_mem k0 hm))]
    rfl

theorem buildQueryLoop_append (ps : List (List Char × List Char)) (out : StrMap)
    (hnd : (ps.map (fun q => String.mk q.1)).Nodup)
    (hdisj : ∀ q ∈ ps, String.mk q.1 ∉ out.map Prod.fst) :
    buildQueryLoop out ps = out ++ ps.map (fun q => (String.mk q.1, String.mk q.2)) := by
  induction ps generalizing out with
  | nil => simp [buildQueryLoop]
  | cons q rest ih =>
    obtain ⟨a, b⟩ := q
    simp only [List.map_cons, List.nodup_cons] at hnd
    rw [buildQueryLoop, setVal_of_not_mem out _ _ (hdisj (a, b) (List.mem_cons_self _ _))]
    rw [ih (out ++ [(String.mk a, String.mk b)]) hnd.2 ?_]
    · simp
    · intro r hr
      simp only [List.map_append, List.mem_append]
      rintro (hm | hm)
      · exact hdisj r (List.mem_cons_of_mem _ hr) hm
      · simp at hm
        exact hnd.1 (hm ▸ List.mem_map_of_mem (fun q => String.mk q.1) hr)

theorem parseUrl_eq_some (s : String) (u : UrlModel) (h : parseUrl s = some u) :
    u.base = s.data.takeWhile (fun c => c != '?') ∧
    validSchemeBase u.base = true ∧
    u.query = parseQueryChars (chopQm (s.data.dropWhile (fun c => c != '?'))) := by
  by_cases hv : validSchemeBase (s.data.takeWhile (fun c => c != '?')) = true
  · rw [parseUrl] at h
    simp only [hv, if_pos] at h
    obtain rfl := (Option.some.injEq _ _).mp h
    exact ⟨rfl, hv, rfl⟩
  · rw [parseUrl] at h
    simp only [hv] at h
    simp at h

theorem not_mem_takeWhile_ne_self (x : Char) (l : List Char) :
    x ∉ l.takeWhile (fun c => c != x) := not_mem_takeWhile_ne x l

theorem parseUrl_urlToString (base : List Char) (ps : List (List Char × List Char))
    (hv : validSchemeBase base = true) (hq : '?' ∉ base) :
    parseUrl (urlToString base ps) =
      some { base := base, query := parseQueryChars (serializeQueryChars ps) } := by
  rw [urlToString, parseUrl]
  show (if validSchemeBase ((base ++ '?' :: serializeQueryChars ps).takeWhile
      (fun c => c != '?')) then _ else none) = _
  rw [takeWhile_ne_append '?' base _ hq]
  rw [if_pos hv]
  rw [dropWhile_ne_append '?' base _ hq]
  simp [chopQm]

/-- C6: query round-trip.  For every string that parses as a URL, the map
built by `build_query_string_map_from_url` is the last-value-wins
collapse of the URL's query pairs; and when the query has no duplicate
parameter names, re-serializing the map with
`apply_query_string_map_to_url` succeeds and yields a URL that parses to
exactly the same key/value pairs (and to the same map). -/
theorem c6_query_roundtrip :
    ∀ (s : String) (u : UrlModel), parseUrl s = some u →
      (∀ k, findVal (build_query_string_map_from_url s) k = lastValue u.query k) ∧
      ((u.query.map (fun q => String.mk q.1)).Nodup →
        ∃ (t : String) (u2 : UrlModel),
          apply_query_string_map_to_url s (build_query_string_map_from_url s) =
            .ok t ∧
          parseUrl t = some u2 ∧ u2.query = u.query ∧
          build_query_string_map_from_url t = build_query_string_map_from_url s) := by
  intro s u h
  have hb : build_query_string_map_from_url s = buildQueryLoop [] u.query := by
    simp only [build_query_string_map_from_url, h]
  constructor
  · intro k
    rw [hb, findVal_buildQueryLoop]
    cases lastValue u.query k <;> rfl
  · intro hnd
    obtain ⟨hbase, hv, hqeq⟩ := parseUrl_eq_some s u h
    have hokq : ∀ q ∈ u.query, okPair q := by
      rw [hqeq]
      exact fun q hq => okPair_of_mem_parseQuery _ q hq
    have hqm : '?' ∉ u.base := by
      rw [hbase]
      exact not_mem_takeWhile_ne_self '?' s.data
    have hbuild : buildQueryLoop [] u.query =
        u.query.map (fun q => (String.mk q.1, String.mk q.2)) := by
      have := buildQueryLoop_append u.query [] hnd (by simp)
      simpa using this
    have hcp : ((u.query.map (fun q => (String.mk q.1, String.mk q.2))).map
        (fun p => (p.1.data, p.2.data))) = u.query := by
      rw [List.map_map]
      exact (List.map_congr_left fun q _ => rfl).trans (List.map_id u.query)
    have happ : apply_query_string_map_to_url s (build_query_string_map_from_url s) =
        .ok (urlToString u.base u.query) := by
      simp only [apply_query_string_map_to_url, h, hb, hbuild, hcp]
    have hround : parseQueryChars (serializeQueryChars u.query) = u.query :=
      parseQuery_serializeQuery u.query hokq
    have hparse2 : parseUrl (urlToString u.base u.query) =
        some { base := u.base, query := parseQueryChars (serializeQueryChars u.query) } :=
      parseUrl_urlToString u.base u.query hv hqm
    refine ⟨urlToString u.base u.query,
      { base := u.base, query := parseQueryChars (serializeQueryChars u.query) },
      happ, hparse2, by simpa using hround, ?_⟩
    simp only [build_query_string_map_from_url, hparse2, hround]
    exact hb.symm

/-- Witness for C6: a URL with two distinct parameters round-trips to
itself pair-for-pair. -/
theorem c6_query_roundtrip_witness :
    ∃ (t : String) (u2 : UrlModel),
      apply_query_string_map_to_url "https://x/api?b=2&a=1"
        (build_query_string_map_from_url "https://x/api?b=2&a=1") = .ok t ∧
      parseUrl t = some u2 ∧
      u2.query = [("b".data, "2".data), ("a".data, "1".data)] ∧
      build_query_string_map_from_url t =
        build_query_string_map_from_url "https://x/api?b=2&a=1" :=
  (c6_query_roundtrip "https://x/api?b=2&a=1"
    { base := "https://x/api".data
    , query := [("b".data, "2".data), ("a".data, "1".data)] }
    (by rfl)).2 (by decide)

/-- C10: `build_query_string_map_from_url` is total — a string that fails to
parse as a URL silently yields the empty map, indistinguishable from a
valid URL that has no query parameters — whereas
`apply_query_string_map_to_url` reports an error on an unparseable URL. -/
theorem c10_build_total_apply_fallible :
    (∀ (s : String) (q : StrMap), parseUrl s = none →
       build_query_string_map_from_url s = [] ∧
       apply_query_string_map_to_url s q = .error "failed to parse URL") ∧
    (∃ (t : String) (u : UrlModel), parseUrl t = some u ∧
       build_query_string_map_from_url t = []) := by
  constructor
  · intro s q h
    constructor
    · simp [build_query_string_map_from_url, h]
    · simp [apply_query_string_map_to_url, h]
  · exact ⟨"https://x/api", { base := "https://x/api".data, query := [] }, by rfl, by rfl⟩

/-- Witness for C10: a string without a scheme fails to parse; the builder
returns the empty map while the serializer reports an error. -/
theorem c10_build_total_apply_fallible_witness :
    build_query_string_map_from_url "notaurl" = [] ∧
    apply_query_string_map_to_url "notaurl" [("a", "b")] =
      .error "failed to parse URL" :=
  c10_build_total_apply_fallible.1 "notaurl" [("a", "b")] (by rfl)
